import Mathlib

/-
Verification of the leader-elected watcher and webhook dispatch subsystem of
the simple-golang-kv repository (Go, etcd-backed key-value store with
webhooks).  Go strings are embedded as lists of characters; Go maps as
association lists (for JSON objects, where emptiness is observed) or as
functions to `Option` (for the watcher's shadow value cache); fallible Go
functions return `Except`/`Option`; the etcd backend's lease-TTL query is an
oracle parameter.  An out-of-range slice index (a Go runtime panic) is
modelled as `Option.none`.
-/

namespace SimpleKV

/-- Go strings embedded as lists of characters. -/
abbrev Str := List Char

/-- Shorthand turning a Lean string literal into the embedded string type. -/
def strL (s : String) : Str := s.toList

/-- Go strings.HasPrefix(s, pre). -/
def hasPrefixStr (s pre : Str) : Bool := pre.isPrefixOf s

/-- Go strings.HasSuffix(s, suf). -/
def hasSuffixStr (s suf : Str) : Bool := suf.isSuffixOf s

/-- Go strings.TrimPrefix(s, pre): drops pre when it is a prefix of s, else returns s. -/
def trimPrefixStr (s pre : Str) : Str :=
  if hasPrefixStr s pre then s.drop pre.length else s

/-- Go strings.TrimSuffix(s, suf): drops suf when it is a suffix of s, else returns s. -/
def trimSuffixStr (s suf : Str) : Str :=
  if hasSuffixStr s suf then s.take (s.length - suf.length) else s

/-- Go strings.Contains(s, sub): sub occurs as a contiguous substring of s. -/
def containsStr : Str → Str → Bool
  | [], sub => sub.isEmpty
  | c :: rest, sub => sub.isPrefixOf (c :: rest) || containsStr rest sub

/-- Go strings.Split(s, sep) for a one-character separator: the list of
segments of s between occurrences of sep (never empty; splitting the empty
string yields one empty segment, as in Go). -/
def splitStr (sep : Char) : Str → List Str
  | [] => [[]]
  | c :: rest =>
    if c = sep then [] :: splitStr sep rest
    else
      match splitStr sep rest with
      | [] => [[c]]
      | h :: t => (c :: h) :: t

/-- Configuration fields consumed by the key codec and the watcher
(src/src/config/config.go); lengths are Go ints. -/
structure Config where
  baseKeyPrefix : Str
  maxNamespaceLen : Int
  maxAppNameLen : Int
  maxKeyLen : Int

/-- Validation failures surfaced by the key codec (the echo.NewHTTPError
bad-request responses of src/src/handlers/kv.go). -/
inductive ValidationError where
  | namespaceTooLong
  | appNameTooLong
  | keyTooLong
  | invalidKeyPrefixError
  deriving DecidableEq

/-- getKVPrefix of src/src/handlers/kv.go: "/" + BaseKeyPrefix + "/kv/" +
namespace + "/" + appName + "/". -/
def getKVPrefix (cfg : Config) (nsp appName : Str) : Str :=
  strL ("/") ++ cfg.baseKeyPrefix ++ strL ("/kv/") ++ nsp ++ strL ("/") ++ appName ++ strL ("/")

/-- getKVPrefixedKey of src/src/handlers/kv.go (namespace and appName already
resolved from headers or defaults): rejects any segment longer than its
configured maximum, else concatenates the kv prefix and the key. -/
def getKVPrefixedKey (cfg : Config) (nsp appName key : Str) : Except ValidationError Str :=
  if cfg.maxNamespaceLen < (nsp.length : Int) then Except.error ValidationError.namespaceTooLong
  else if cfg.maxAppNameLen < (appName.length : Int) then Except.error ValidationError.appNameTooLong
  else if cfg.maxKeyLen < (key.length : Int) then Except.error ValidationError.keyTooLong
  else Except.ok (getKVPrefix cfg nsp appName ++ key)

/-- getOriginalKVKey of src/src/handlers/kv.go: fails unless prefixedKey
starts with the prefix implied by namespace and appName, else trims it. -/
def getOriginalKVKey (cfg : Config) (nsp appName : Str) (prefixedKey : Str) :
    Except ValidationError Str :=
  let pre := getKVPrefix cfg nsp appName
  if hasPrefixStr prefixedKey pre then Except.ok (trimPrefixStr prefixedKey pre)
  else Except.error ValidationError.invalidKeyPrefixError

/-- keyMatches of the webhook handler: a pattern with a trailing '*' matches
keys starting with the pattern's literal part, otherwise exact equality. -/
def keyMatches (pattern key : Str) : Bool :=
  if hasSuffixStr pattern (strL ("*")) then
    hasPrefixStr key (trimSuffixStr pattern (strL ("*")))
  else pattern == key

/-- slicePrefixedKey of the webhook handler: splits the remainder of the
prefixed key after "/{base}/kv/" on '/'; the code guards only
len(parts) < 2 before reading parts[2], so the read of parts[2] can be out
of range — that Go panic is modelled as none. -/
def slicePrefixedKey (cfg : Config) (prefixedKey : Str) : Option (Str × Str × Str) :=
  let parts := splitStr '/' (trimPrefixStr prefixedKey (strL ("/") ++ cfg.baseKeyPrefix ++ strL ("/kv/")))
  if parts.length < 2 then some ([], [], [])
  else
    match parts[2]? with
    | none => none
    | some key => some (parts.getD 0 [], parts.getD 1 [], key)

/-- Concrete configuration with the repository's default values
(BASE_KEY_PREFIX "kvstore", length limits 25/25/100). -/
def cfgDefault : Config :=
  { baseKeyPrefix := strL ("kvstore"), maxNamespaceLen := 25, maxAppNameLen := 25, maxKeyLen := 100 }

/-- The JSON values stored in webhook custom payloads and assembled into
delivery payloads (Go map[string]interface{} values, abstracted from
encoding/json). -/
inductive JVal where
  | jNull
  | jBool (b : Bool)
  | jInt (n : Int)
  | jStr (s : Str)
  | jObj (fields : List (Str × JVal))

/-- Lookup in an association-list embedding of a Go map (first entry with the
given key; maps built by assocInsert carry at most one entry per key). -/
def assocLookup {β : Type} (k : Str) : List (Str × β) → Option β
  | [] => none
  | p :: rest => if p.1 = k then some p.2 else assocLookup k rest

/-- Go map assignment m[k] = v on the association-list embedding: replaces
the entry for k when present, else appends it. -/
def assocInsert {β : Type} (k : Str) (v : β) : List (Str × β) → List (Str × β)
  | [] => [(k, v)]
  | p :: rest => if p.1 = k then (k, v) :: rest else p :: assocInsert k v rest

/-- The stored Webhook record of the webhook handler (JSON field values
embedded structurally; Payload is nil or a JSON object, AddEventData the
include-event-data flag). -/
structure Webhook where
  id : Str
  «namespace» : Str
  appName : Str
  key : Str
  event : Str
  endpoint : Str
  method : Str
  headers : List (Str × Str)
  payload : Option (List (Str × JVal))
  addEventData : Bool
  createdAt : Int

/-- KVItem of src/src/store/store.go. -/
structure KVItem where
  key : Str
  value : Str
  ttl : Option Int

/-- Event kind constant EventCreate ("create"). -/
def eventCreate : Str := strL ("create")

/-- Event kind constant EventUpdate ("update"). -/
def eventUpdate : Str := strL ("update")

/-- Event kind constant EventDelete ("delete"). -/
def eventDelete : Str := strL ("delete")

/-- The webhookPathSegment constant "/webhooks/" of the watcher. -/
def webhookPathSegment : Str := strL ("/webhooks/")

/-- The literal "/locks/" the watcher uses to skip lock keys. -/
def locksPathSegment : Str := strL ("/locks/")

/-- The match-and-dispatch loop of triggerWebhooksForKey (lines 328-346 of
the webhook handler), with each stored record abstracted to the outcome of
its json.Unmarshal (none = corrupt payload, skipped by continue): collects
the webhooks handed to go sendWebhook, i.e. those whose Event equals the
classified event and whose Key pattern matches the logical key. -/
def webhookMatchPass (records : List (Option Webhook)) (event : Str) (key : Str) : List Webhook :=
  match records with
  | [] => []
  | none :: rest => webhookMatchPass rest event key
  | some webhook :: rest =>
    if webhook.event = event then
      if keyMatches webhook.key key then webhook :: webhookMatchPass rest event key
      else webhookMatchPass rest event key
    else webhookMatchPass rest event key

/-- Field name "event". -/
def fEvent : Str := strL ("event")

/-- Field name "namespace". -/
def fNamespace : Str := strL ("namespace")

/-- Field name "appName". -/
def fAppName : Str := strL ("appName")

/-- Field name "key". -/
def fKey : Str := strL ("key")

/-- Field name "timestamp". -/
def fTimestamp : Str := strL ("timestamp")

/-- Field name "value". -/
def fValue : Str := strL ("value")

/-- Field name "ttl". -/
def fTtl : Str := strL ("ttl")

/-- Field name "expire_at". -/
def fExpireAt : Str := strL ("expire_at")

/-- buildEventData of the webhook handler: the nested event object with
event kind, namespace, appName, key, timestamp, the value (or JSON null when
no KVItem is known), and ttl plus expire_at when a TTL is attached.  The two
time.Now() calls of the source are modelled by the single instant now, so
timestamp = now and expire_at = now + ttl. -/
def buildEventData (webhook : Webhook) (key : Str) (kvItem : Option KVItem) (now : Int) :
    List (Str × JVal) :=
  let eventData := assocInsert fEvent (JVal.jStr webhook.event) []
  let eventData := assocInsert fNamespace (JVal.jStr webhook.«namespace») eventData
  let eventData := assocInsert fAppName (JVal.jStr webhook.appName) eventData
  let eventData := assocInsert fKey (JVal.jStr key) eventData
  let eventData := assocInsert fTimestamp (JVal.jInt now) eventData
  match kvItem with
  | some item =>
    let eventData := assocInsert fValue (JVal.jStr item.value) eventData
    match item.ttl with
    | some t => assocInsert fExpireAt (JVal.jInt (now + t)) (assocInsert fTtl (JVal.jInt t) eventData)
    | none => eventData
  | none => assocInsert fValue JVal.jNull eventData

/-- buildWebhookPayload of the webhook handler: copies the webhook's custom
payload fields (when its Payload map is non-nil) into a fresh map, then, when
AddEventData is set, stores the nested event object under "event".  The
source then marshals the map, returning empty bytes when it is empty; the
model returns the map itself. -/
def buildWebhookPayload (webhook : Webhook) (key : Str) (kvItem : Option KVItem) (now : Int) :
    List (Str × JVal) :=
  let payload : List (Str × JVal) := []
  let payload :=
    match webhook.payload with
    | some extra => extra.foldl (fun m p => assocInsert p.1 p.2 m) payload
    | none => payload
  if webhook.addEventData then
    assocInsert fEvent (JVal.jObj (buildEventData webhook key kvItem now)) payload
  else payload

/-- The watcher's shadow value cache (previousValues, a Go
map[string]string), embedded as a function to Option. -/
abbrev Cache := Str → Option Str

/-- Go map assignment previousValues[key] = value. -/
def cacheInsert (c : Cache) (k v : Str) : Cache :=
  fun x => if x = k then some v else c x

/-- Go delete(previousValues, key). -/
def cacheErase (c : Cache) (k : Str) : Cache :=
  fun x => if x = k then none else c x

/-- The empty shadow cache. -/
def cacheEmpty : Cache := fun _ => none

/-- The two mvccpb event types carried by etcd watch events. -/
inductive MvccEventType where
  | PUT
  | DELETE
  deriving DecidableEq

/-- An etcd watch event as consumed by the watcher: key, value bytes and
lease id of the event's KeyValue. -/
structure WatchEvent where
  type : MvccEventType
  key : Str
  value : Str
  lease : Int

/-- The TTL resolution of processWatchEvent lines 174-180: when the event
carries a lease, query the backend (the oracle ttlOf; none = error) and keep
the TTL only when positive. -/
def resolveLeaseTTL (ttlOf : Int → Option Int) (lease : Int) : Option Int :=
  if 0 < lease then
    match ttlOf lease with
    | some t => if 0 < t then some t else none
    | none => none
  else none

/-- processWatchEvent of the watcher: classifies one mutation event against
the shadow cache and updates the cache.  Returns ((eventType, kvItem),
updated cache); eventType "create"/"update" for puts by prior presence,
"delete" for deletes carrying the previously cached value when one exists. -/
def processWatchEvent (ttlOf : Int → Option Int) (event : WatchEvent) (key : Str)
    (previousValues : Cache) : (Str × Option KVItem) × Cache :=
  match event.type with
  | MvccEventType.PUT =>
    let eventType := if (previousValues key).isSome then eventUpdate else eventCreate
    let newCache := cacheInsert previousValues key event.value
    ((eventType, some { key := key, value := event.value, ttl := resolveLeaseTTL ttlOf event.lease }),
      newCache)
  | MvccEventType.DELETE =>
    match previousValues key with
    | some prevValue =>
      ((eventDelete, some { key := key, value := prevValue, ttl := none }),
        cacheErase previousValues key)
    | none => ((eventDelete, none), previousValues)

/-- One webhook trigger emitted by the watcher: the prefixed key, the
classified event kind and the KVItem handed to triggerWebhooksForKey. -/
abbrev Trigger := Str × Str × Option KVItem

/-- processWatchEvents of the watcher: skips reserved keys (containing
"/webhooks/" or "/locks/"), classifies the rest in order and collects the
triggerWebhooksForKey calls, threading the shadow cache. -/
def processWatchEvents (ttlOf : Int → Option Int) :
    List WatchEvent → Cache → List Trigger × Cache
  | [], previousValues => ([], previousValues)
  | event :: rest, previousValues =>
    let key := event.key
    if containsStr key webhookPathSegment || containsStr key locksPathSegment then
      processWatchEvents ttlOf rest previousValues
    else
      let r := processWatchEvent ttlOf event key previousValues
      let rrest := processWatchEvents ttlOf rest r.2
      (if r.1.1 = [] then rrest.1 else (key, r.1.1, r.1.2) :: rrest.1, rrest.2)

/-- The signals the select of watchForChanges can receive: caller
cancellation, session expiry, the watch channel closing, or a batch of watch
events. -/
inductive WatchSignal where
  | ctxDone
  | sessionDone
  | chanClosed
  | batch (events : List WatchEvent)

/-- Why the watch loop exited. -/
inductive ExitReason where
  | ctxCanceled
  | sessionExpired
  | channelClosed
  deriving DecidableEq

/-- State threaded through the watch loop: the unlocked flag shared with the
deferred cleanup of tryAcquireLockAndWatch, a count of unlockMutex calls
(attempted mu.Unlock operations), the shadow cache, and the triggers fired. -/
structure WatchLoopState where
  unlocked : Bool
  unlockCalls : Nat
  previousValues : Cache
  triggered : List Trigger

/-- watchForChanges of the watcher, driven by the sequence of signals its
select receives: on ctx.Done it unlocks (when not yet unlocked) and sets the
flag; on session.Done it returns at once; on channel close it unlocks (when
not yet unlocked) and sets the flag; on a batch it processes the events and
loops.  Returns none as reason when the signal list runs out (the Go loop
would block). -/
def watchForChanges (ttlOf : Int → Option Int) :
    List WatchSignal → WatchLoopState → Option ExitReason × WatchLoopState
  | [], st => (none, st)
  | WatchSignal.ctxDone :: _, st =>
    (some ExitReason.ctxCanceled,
      if st.unlocked then st else { st with unlocked := true, unlockCalls := st.unlockCalls + 1 })
  | WatchSignal.sessionDone :: _, st => (some ExitReason.sessionExpired, st)
  | WatchSignal.chanClosed :: _, st =>
    (some ExitReason.channelClosed,
      if st.unlocked then st else { st with unlocked := true, unlockCalls := st.unlockCalls + 1 })
  | WatchSignal.batch events :: rest, st =>
    let r := processWatchEvents ttlOf events st.previousValues
    watchForChanges ttlOf rest
      { st with previousValues := r.2, triggered := st.triggered ++ r.1 }

/-- The post-acquire portion of tryAcquireLockAndWatch: runs watchForChanges
from a freshly acquired lock (unlocked = false, no unlock calls yet), then
the deferred cleanup calls unlockMutex whenever the unlocked flag is still
false. -/
def tryAcquireLockAndWatch (ttlOf : Int → Option Int) (signals : List WatchSignal)
    (initialCache : Cache) : Option ExitReason × WatchLoopState :=
  let r := watchForChanges ttlOf signals
    { unlocked := false, unlockCalls := 0, previousValues := initialCache, triggered := [] }
  (r.1, if r.2.unlocked then r.2 else { r.2 with unlockCalls := r.2.unlockCalls + 1 })

/-- A lease-TTL oracle for concrete runs: the backend query always errors. -/
def ttlOfNone : Int → Option Int := fun _ => none

/-- A concrete reserved-key watch event (a webhook record mutation). -/
def reservedEventSample : WatchEvent :=
  { type := MvccEventType.PUT, key := strL ("/kvstore/webhooks/myns/myapp/id1"),
    value := strL ("x"), lease := 0 }

/-- A concrete stored webhook used to instantiate the payload theorems. -/
def webhookSample : Webhook :=
  { id := strL ("id1"), «namespace» := strL ("myns"), appName := strL ("myapp"),
    key := strL ("user*"), event := eventCreate, endpoint := strL ("endpoint1"),
    method := strL ("POST"), headers := [],
    payload := some [(strL ("source"), JVal.jStr (strL ("kv-store")))],
    addEventData := true, createdAt := 0 }

/-- A concrete KVItem with a TTL used to instantiate the payload theorems. -/
def kvItemSample : KVItem :=
  { key := strL ("/kvstore/kv/myns/myapp/user1"), value := strL ("x"), ttl := some 60 }

/-- Boolean suffix test agrees with the suffix relation. -/
theorem hasSuffixStr_iff (s suf : Str) : hasSuffixStr s suf = true ↔ suf <:+ s := by
  unfold hasSuffixStr
  exact List.isSuffixOf_iff_suffix

/-- Boolean prefix test agrees with the prefix relation. -/
theorem hasPrefixStr_iff (s pre : Str) : hasPrefixStr s pre = true ↔ pre <+: s := by
  unfold hasPrefixStr
  exact List.isPrefixOf_iff_prefix

/-- C6: a pattern without a trailing wildcard matches exactly the equal key;
a pattern with a trailing '*' matches exactly the keys extending its literal
part; concretely, "foo" matches only "foo", and "foo*" matches "foo",
"foobar", "foo123" and rejects "fo" and "bar". -/
theorem keyMatches_spec :
    (∀ pattern key : Str, keyMatches pattern key = true ↔
        (if strL ("*") <:+ pattern then pattern.dropLast <+: key else pattern = key))
  ∧ (∀ key : Str, (keyMatches (strL ("foo")) key = true) ↔ key = strL ("foo"))
  ∧ keyMatches (strL ("foo*")) (strL ("foo")) = true
  ∧ keyMatches (strL ("foo*")) (strL ("foobar")) = true
  ∧ keyMatches (strL ("foo*")) (strL ("foo123")) = true
  ∧ keyMatches (strL ("foo*")) (strL ("fo")) = false
  ∧ keyMatches (strL ("foo*")) (strL ("bar")) = false := by
  have hgen : ∀ pattern key : Str, keyMatches pattern key = true ↔
      (if strL ("*") <:+ pattern then pattern.dropLast <+: key else pattern = key) := by
    intro p k
    by_cases hs : strL ("*") <:+ p
    · obtain ⟨t, ht⟩ := hs
      rw [if_pos ⟨t, ht⟩]
      subst ht
      unfold keyMatches
      rw [if_pos ((hasSuffixStr_iff _ _).mpr ⟨t, rfl⟩)]
      unfold hasPrefixStr trimSuffixStr
      rw [if_pos ((hasSuffixStr_iff _ _).mpr ⟨t, rfl⟩)]
      have hlen : (t ++ strL ("*")).length - (strL ("*")).length = t.length := by
        simp [List.length_append]
      rw [hlen, List.take_left t (strL ("*"))]
      have hdl : (t ++ strL ("*")).dropLast = t := by
        have hstar : strL ("*") = ['*'] := rfl
        rw [hstar, List.dropLast_concat]
      rw [hdl]
      exact List.isPrefixOf_iff_prefix
    · unfold keyMatches
      rw [if_neg hs]
      rw [if_neg (fun hb => hs ((hasSuffixStr_iff _ _).mp hb))]
      exact beq_iff_eq
  refine ⟨hgen, ?_, by decide, by decide, by decide, by decide, by decide⟩
  intro k
  rw [hgen (strL ("foo")) k, if_neg (by decide)]
  exact eq_comm

/-- C3: for every namespace, app and key within the configured length
limits, decoding the backend key produced by encoding — with the same
namespace and app supplied as expected — succeeds and returns exactly the
original key. -/
theorem kv_codec_roundtrip (cfg : Config) (nsp appName key : Str)
    (hns : (nsp.length : Int) ≤ cfg.maxNamespaceLen)
    (happ : (appName.length : Int) ≤ cfg.maxAppNameLen)
    (hkey : (key.length : Int) ≤ cfg.maxKeyLen) :
    ∃ prefixedKey, getKVPrefixedKey cfg nsp appName key = Except.ok prefixedKey ∧
      getOriginalKVKey cfg nsp appName prefixedKey = Except.ok key := by
  refine ⟨getKVPrefix cfg nsp appName ++ key, ?_, ?_⟩
  · unfold getKVPrefixedKey
    rw [if_neg (not_lt.mpr hns), if_neg (not_lt.mpr happ), if_neg (not_lt.mpr hkey)]
  · have hpre : hasPrefixStr (getKVPrefix cfg nsp appName ++ key) (getKVPrefix cfg nsp appName) = true :=
      List.isPrefixOf_iff_prefix.mpr (List.prefix_append _ _)
    unfold getOriginalKVKey
    rw [if_pos hpre]
    unfold trimPrefixStr
    rw [if_pos hpre, List.drop_left]

/-- Witness for C3: the default configuration with namespace "myns", app
"myapp" and key "user1" round-trips through the codec. -/
theorem kv_codec_roundtrip_witness :
    (((strL ("myns")).length : Int) ≤ cfgDefault.maxNamespaceLen ∧
      ((strL ("myapp")).length : Int) ≤ cfgDefault.maxAppNameLen ∧
      ((strL ("user1")).length : Int) ≤ cfgDefault.maxKeyLen) ∧
    getOriginalKVKey cfgDefault (strL ("myns")) (strL ("myapp"))
      (strL ("/kvstore/kv/myns/myapp/user1")) = Except.ok (strL ("user1")) := by
  refine ⟨⟨by decide, by decide, by decide⟩, ?_⟩
  obtain ⟨pk, h1, h2⟩ := kv_codec_roundtrip cfgDefault (strL ("myns")) (strL ("myapp"))
    (strL ("user1")) (by decide) (by decide) (by decide)
  have hconc : getKVPrefixedKey cfgDefault (strL ("myns")) (strL ("myapp")) (strL ("user1")) =
      Except.ok (strL ("/kvstore/kv/myns/myapp/user1")) := rfl
  rw [hconc] at h1
  cases h1
  exact h2

/-- C7: encoding fails with a validation error exactly when the namespace,
app name or key exceeds its configured maximum length, and otherwise returns
the concatenation of the base prefix, the kv segment, namespace, app and
key. -/
theorem getKVPrefixedKey_spec (cfg : Config) (nsp appName key : Str) :
    ((∃ e, getKVPrefixedKey cfg nsp appName key = Except.error e) ↔
      (cfg.maxNamespaceLen < (nsp.length : Int) ∨ cfg.maxAppNameLen < (appName.length : Int) ∨
        cfg.maxKeyLen < (key.length : Int)))
  ∧ (¬(cfg.maxNamespaceLen < (nsp.length : Int) ∨ cfg.maxAppNameLen < (appName.length : Int) ∨
        cfg.maxKeyLen < (key.length : Int)) →
      getKVPrefixedKey cfg nsp appName key =
        Except.ok (strL ("/") ++ cfg.baseKeyPrefix ++ strL ("/kv/") ++ nsp ++ strL ("/") ++
          appName ++ strL ("/") ++ key)) := by
  constructor
  · constructor
    · rintro ⟨e, he⟩
      by_contra hno
      push_neg at hno
      obtain ⟨h1, h2, h3⟩ := hno
      unfold getKVPrefixedKey at he
      rw [if_neg (not_lt.mpr h1), if_neg (not_lt.mpr h2), if_neg (not_lt.mpr h3)] at he
      exact Except.noConfusion he
    · intro h
      unfold getKVPrefixedKey
      by_cases h1 : cfg.maxNamespaceLen < (nsp.length : Int)
      · exact ⟨ValidationError.namespaceTooLong, by rw [if_pos h1]⟩
      · by_cases h2 : cfg.maxAppNameLen < (appName.length : Int)
        · exact ⟨ValidationError.appNameTooLong, by rw [if_neg h1, if_pos h2]⟩
        · have h3 : cfg.maxKeyLen < (key.length : Int) := by tauto
          exact ⟨ValidationError.keyTooLong, by rw [if_neg h1, if_neg h2, if_pos h3]⟩
  · intro hno
    push_neg at hno
    obtain ⟨h1, h2, h3⟩ := hno
    unfold getKVPrefixedKey
    rw [if_neg (not_lt.mpr h1), if_neg (not_lt.mpr h2), if_neg (not_lt.mpr h3)]
    rfl

/-- Witness for C7: with the default limits, encoding ("myns", "myapp",
"user1") stays within bounds and yields the concatenated backend key. -/
theorem getKVPrefixedKey_spec_witness :
    ¬(cfgDefault.maxNamespaceLen < (((strL ("myns"))).length : Int) ∨
      cfgDefault.maxAppNameLen < (((strL ("myapp"))).length : Int) ∨
      cfgDefault.maxKeyLen < (((strL ("user1"))).length : Int)) ∧
    getKVPrefixedKey cfgDefault (strL ("myns")) (strL ("myapp")) (strL ("user1")) =
      Except.ok (strL ("/") ++ cfgDefault.baseKeyPrefix ++ strL ("/kv/") ++ strL ("myns") ++
        strL ("/") ++ strL ("myapp") ++ strL ("/") ++ strL ("user1")) :=
  ⟨by decide, (getKVPrefixedKey_spec cfgDefault (strL ("myns")) (strL ("myapp"))
    (strL ("user1"))).2 (by decide)⟩

/-- C1: a put on a key absent from the shadow cache classifies as create, on
a present key as update; a delete classifies as delete, carrying the
previously cached value exactly when one was present; and the cache is then
updated: a put stores the new value, a delete removes the entry, all other
keys unchanged. -/
theorem processWatchEvent_spec (ttlOf : Int → Option Int) (event : WatchEvent)
    (previousValues : Cache) :
    ((processWatchEvent ttlOf event event.key previousValues).1.1 =
      (match event.type, previousValues event.key with
       | MvccEventType.PUT, none => eventCreate
       | MvccEventType.PUT, some _ => eventUpdate
       | MvccEventType.DELETE, _ => eventDelete))
  ∧ ((processWatchEvent ttlOf event event.key previousValues).1.2 =
      (match event.type, previousValues event.key with
       | MvccEventType.PUT, _ =>
         some { key := event.key, value := event.value, ttl := resolveLeaseTTL ttlOf event.lease }
       | MvccEventType.DELETE, some v => some { key := event.key, value := v, ttl := none }
       | MvccEventType.DELETE, none => none))
  ∧ (∀ k, (processWatchEvent ttlOf event event.key previousValues).2 k =
      (match event.type with
       | MvccEventType.PUT => if k = event.key then some event.value else previousValues k
       | MvccEventType.DELETE => if k = event.key then none else previousValues k)) := by
  cases hty : event.type with
  | PUT =>
    cases hv : previousValues event.key with
    | none =>
      refine ⟨by simp [processWatchEvent, hty, hv], by simp [processWatchEvent, hty, hv], ?_⟩
      intro k
      simp [processWatchEvent, hty, hv, cacheInsert]
    | some v =>
      refine ⟨by simp [processWatchEvent, hty, hv], by simp [processWatchEvent, hty, hv], ?_⟩
      intro k
      simp [processWatchEvent, hty, hv, cacheInsert]
  | DELETE =>
    cases hv : previousValues event.key with
    | none =>
      refine ⟨by simp [processWatchEvent, hty, hv], by simp [processWatchEvent, hty, hv], ?_⟩
      intro k
      by_cases hk : k = event.key
      · subst hk; simp [processWatchEvent, hty, hv]
      · simp [processWatchEvent, hty, hv, hk]
    | some v =>
      refine ⟨by simp [processWatchEvent, hty, hv], by simp [processWatchEvent, hty, hv], ?_⟩
      intro k
      simp [processWatchEvent, hty, hv, cacheErase]

/-- C2 evaluation: driving one acquired-lock watch cycle with the
session-expired signal, the cycle exits for sessionExpired — yet one unlock
of the distributed lock is attempted: watchForChanges returns without
setting the unlocked flag, so the deferred cleanup of tryAcquireLockAndWatch
still calls unlockMutex, contradicting the claim (and the code's own log
line that the lock "will be released automatically"). -/
theorem sessionExpired_unlock_attempted :
    (tryAcquireLockAndWatch ttlOfNone [WatchSignal.sessionDone] cacheEmpty).1 =
      some ExitReason.sessionExpired ∧
    (tryAcquireLockAndWatch ttlOfNone [WatchSignal.sessionDone] cacheEmpty).2.unlockCalls = 1 :=
  ⟨rfl, rfl⟩

/-- C4: a mutation event whose backend key contains the webhooks or locks
segment contributes nothing to the watcher's processing step: no classified
event, no webhook trigger, and no cache change. -/
theorem processWatchEvents_skips_reserved (ttlOf : Int → Option Int) (event : WatchEvent)
    (rest : List WatchEvent) (previousValues : Cache)
    (h : containsStr event.key webhookPathSegment = true ∨
      containsStr event.key locksPathSegment = true) :
    processWatchEvents ttlOf (event :: rest) previousValues =
      processWatchEvents ttlOf rest previousValues := by
  conv_lhs => unfold processWatchEvents
  rcases h with h | h <;> simp [h]

/-- Witness for C4: a webhook-record put event is skipped whole by the
event-processing step. -/
theorem processWatchEvents_skips_reserved_witness :
    containsStr reservedEventSample.key webhookPathSegment = true ∧
    processWatchEvents ttlOfNone [reservedEventSample] cacheEmpty =
      processWatchEvents ttlOfNone [] cacheEmpty :=
  ⟨by decide, processWatchEvents_skips_reserved ttlOfNone reservedEventSample [] cacheEmpty
    (Or.inl (by decide))⟩

/-- C5: the match pass of triggerWebhooksForKey dispatches exactly the
stored records that parse, whose event kind equals the classified event and
whose key pattern matches the logical key; a record that fails to parse is
skipped and never fails the pass.  (In particular a webhook registered for
create is never dispatched for an update or delete event, since membership
forces equality of event kinds.) -/
theorem webhookMatchPass_spec :
    (∀ (records : List (Option Webhook)) (event key : Str) (w : Webhook),
        w ∈ webhookMatchPass records event key ↔
          some w ∈ records ∧ w.event = event ∧ keyMatches w.key key = true)
  ∧ (∀ (records : List (Option Webhook)) (event key : Str),
        webhookMatchPass (none :: records) event key = webhookMatchPass records event key) := by
  constructor
  · intro records event key w
    induction records with
    | nil => simp [webhookMatchPass]
    | cons head rest ih =>
      cases head with
      | none =>
        rw [show webhookMatchPass (none :: rest) event key = webhookMatchPass rest event key
          from rfl, ih]
        simp
      | some wh =>
        by_cases hev : wh.event = event
        · by_cases hk : keyMatches wh.key key = true
          · have heq : webhookMatchPass (some wh :: rest) event key =
                wh :: webhookMatchPass rest event key := by
              simp [webhookMatchPass, hev, hk]
            rw [heq]
            constructor
            · intro hm
              rcases List.mem_cons.mp hm with hcase | hcase
              · subst hcase; exact ⟨List.mem_cons_self _ _, hev, hk⟩
              · obtain ⟨h1, h2, h3⟩ := ih.mp hcase
                exact ⟨List.mem_cons_of_mem _ h1, h2, h3⟩
            · rintro ⟨h1, h2, h3⟩
              rcases List.mem_cons.mp h1 with hcase | hcase
              · rw [Option.some.injEq] at hcase
                subst hcase
                exact List.mem_cons_self _ _
              · exact List.mem_cons_of_mem _ (ih.mpr ⟨hcase, h2, h3⟩)
          · have heq : webhookMatchPass (some wh :: rest) event key =
                webhookMatchPass rest event key := by
              simp [webhookMatchPass, hev, hk]
            rw [heq, ih]
            constructor
            · rintro ⟨h1, h2, h3⟩; exact ⟨List.mem_cons_of_mem _ h1, h2, h3⟩
            · rintro ⟨h1, h2, h3⟩
              rcases List.mem_cons.mp h1 with hcase | hcase
              · rw [Option.some.injEq] at hcase; subst hcase; exact absurd h3 hk
              · exact ⟨hcase, h2, h3⟩
        · have heq : webhookMatchPass (some wh :: rest) event key =
              webhookMatchPass rest event key := by
            simp [webhookMatchPass, hev]
          rw [heq, ih]
          constructor
          · rintro ⟨h1, h2, h3⟩; exact ⟨List.mem_cons_of_mem _ h1, h2, h3⟩
          · rintro ⟨h1, h2, h3⟩
            rcases List.mem_cons.mp h1 with hcase | hcase
            · rw [Option.some.injEq] at hcase; subst hcase; exact absurd h2 hev
            · exact ⟨hcase, h2, h3⟩
  · intro records event key
    rfl

/-- C10 evaluation: slicePrefixedKey's guard only rejects remainders with
fewer than two slash-separated segments before reading the third one, so the
backend key "/kvstore/kv/ns/app" — exactly two segments after the kv prefix —
passes the guard and the read of parts[2] goes out of bounds (a Go panic,
modelled as none), while a three-segment key is sliced normally. -/
theorem slicePrefixedKey_out_of_bounds :
    slicePrefixedKey cfgDefault (strL ("/kvstore/kv/ns/app")) = none ∧
    slicePrefixedKey cfgDefault (strL ("/kvstore/kv/ns/app/k")) =
      some (strL ("ns"), strL ("app"), strL ("k")) := by
  exact ⟨rfl, rfl⟩

/-- Looking up the key just inserted finds the inserted value. -/
theorem assocLookup_insert_self {β : Type} (m : List (Str × β)) (k : Str) (v : β) :
    assocLookup k (assocInsert k v m) = some v := by
  induction m with
  | nil => simp [assocInsert, assocLookup]
  | cons p rest ih =>
    by_cases h : p.1 = k
    · simp [assocInsert, assocLookup, h]
    · simp [assocInsert, assocLookup, h, ih]

/-- Inserting one key leaves lookups of other keys unchanged. -/
theorem assocLookup_insert_ne {β : Type} (m : List (Str × β)) (k k' : Str) (v : β)
    (h : k' ≠ k) :
    assocLookup k' (assocInsert k v m) = assocLookup k' m := by
  induction m with
  | nil => simp [assocInsert, assocLookup, Ne.symm h]
  | cons p rest ih =>
    by_cases hp : p.1 = k
    · simp [assocInsert, assocLookup, hp, Ne.symm h]
    · simp [assocInsert, assocLookup, hp, ih]

/-- A key outside the key column is not found. -/
theorem assocLookup_eq_none {β : Type} (m : List (Str × β)) (k : Str)
    (h : k ∉ m.map Prod.fst) : assocLookup k m = none := by
  induction m with
  | nil => rfl
  | cons p rest ih =>
    simp only [List.map_cons, List.mem_cons] at h
    push_neg at h
    rw [show assocLookup k (p :: rest) = if p.1 = k then some p.2 else assocLookup k rest
      from rfl, if_neg (fun hh => h.1 hh.symm), ih h.2]

/-- Insertion never produces the empty map. -/
theorem assocInsert_ne_nil {β : Type} (m : List (Str × β)) (k : Str) (v : β) :
    assocInsert k v m ≠ [] := by
  cases m with
  | nil => simp [assocInsert]
  | cons p rest => by_cases h : p.1 = k <;> simp [assocInsert, h]

/-- Insertion never shrinks the map. -/
theorem assocInsert_length {β : Type} (m : List (Str × β)) (k : Str) (v : β) :
    m.length ≤ (assocInsert k v m).length := by
  induction m with
  | nil => simp [assocInsert]
  | cons p rest ih =>
    by_cases h : p.1 = k
    · simp [assocInsert, h]
    · simp only [assocInsert, h, if_false, List.length_cons]
      exact Nat.succ_le_succ ih

/-- Folding insertions never shrinks the accumulator. -/
theorem foldl_assocInsert_length {β : Type} (l : List (Str × β)) (acc : List (Str × β)) :
    acc.length ≤ (l.foldl (fun m p => assocInsert p.1 p.2 m) acc).length := by
  induction l generalizing acc with
  | nil => exact Nat.le_refl _
  | cons p rest ih =>
    rw [List.foldl_cons]
    exact Nat.le_trans (assocInsert_length acc p.1 p.2) (ih (assocInsert p.1 p.2 acc))

/-- Copying a duplicate-free field list into a map by successive insertions:
lookups find the copied field when present, else fall through to the
accumulator. -/
theorem assocLookup_foldl_insert {β : Type} (l : List (Str × β)) (acc : List (Str × β))
    (k : Str) (h : (l.map Prod.fst).Nodup) :
    assocLookup k (l.foldl (fun m p => assocInsert p.1 p.2 m) acc) =
      (match assocLookup k l with
       | some v => some v
       | none => assocLookup k acc) := by
  induction l generalizing acc with
  | nil => simp [assocLookup]
  | cons p rest ih =>
    rw [List.map_cons] at h
    have hcons := List.nodup_cons.mp h
    rw [List.foldl_cons, ih (assocInsert p.1 p.2 acc) hcons.2]
    by_cases hk : p.1 = k
    · subst hk
      rw [assocLookup_eq_none rest p.1 hcons.1]
      rw [show assocLookup p.1 (p :: rest) = if p.1 = p.1 then some p.2 else assocLookup p.1 rest
        from rfl, if_pos rfl, assocLookup_insert_self]
    · rw [show assocLookup k (p :: rest) = if p.1 = k then some p.2 else assocLookup k rest
        from rfl, if_neg hk, assocLookup_insert_ne acc p.1 k p.2 (fun hh => hk hh.symm)]

/-- C8: the delivery payload is the webhook's custom payload fields with, on
the include-event-data flag, the nested event object stored under "event";
the payload is empty exactly when there are no custom fields and the flag is
off; and the event object carries the event kind, namespace, appName, key,
timestamp, the value (JSON null when no prior value is known), and ttl plus
expire_at exactly when a TTL is known. -/
theorem buildWebhookPayload_spec (webhook : Webhook) (key : Str) (kvItem : Option KVItem)
    (now : Int) (hnodup : ((webhook.payload.getD []).map Prod.fst).Nodup) :
    (∀ f, assocLookup f (buildWebhookPayload webhook key kvItem now) =
        (if webhook.addEventData = true ∧ f = fEvent
         then some (JVal.jObj (buildEventData webhook key kvItem now))
         else assocLookup f (webhook.payload.getD [])))
  ∧ (buildWebhookPayload webhook key kvItem now = [] ↔
      (webhook.payload.getD [] = [] ∧ webhook.addEventData = false))
  ∧ (assocLookup fEvent (buildEventData webhook key kvItem now) =
      some (JVal.jStr webhook.event))
  ∧ (assocLookup fNamespace (buildEventData webhook key kvItem now) =
      some (JVal.jStr webhook.«namespace»))
  ∧ (assocLookup fAppName (buildEventData webhook key kvItem now) =
      some (JVal.jStr webhook.appName))
  ∧ (assocLookup fKey (buildEventData webhook key kvItem now) = some (JVal.jStr key))
  ∧ (assocLookup fTimestamp (buildEventData webhook key kvItem now) = some (JVal.jInt now))
  ∧ (assocLookup fValue (buildEventData webhook key kvItem now) =
      some (match kvItem with
            | some item => JVal.jStr item.value
            | none => JVal.jNull))
  ∧ (assocLookup fTtl (buildEventData webhook key kvItem now) =
      (match kvItem with
       | some item => Option.map JVal.jInt item.ttl
       | none => none))
  ∧ (assocLookup fExpireAt (buildEventData webhook key kvItem now) =
      (match kvItem with
       | some item => Option.map (fun t => JVal.jInt (now + t)) item.ttl
       | none => none)) := by
  have hbase : ∀ f, assocLookup f
      (match webhook.payload with
       | some extra => extra.foldl (fun m p => assocInsert p.1 p.2 m) []
       | none => ([] : List (Str × JVal))) = assocLookup f (webhook.payload.getD []) := by
    intro f
    cases hp : webhook.payload with
    | none => rfl
    | some extra =>
      rw [assocLookup_foldl_insert extra [] f (by rw [hp] at hnodup; simpa using hnodup)]
      simp only [Option.getD_some]
      cases hr : assocLookup f extra <;> simp [assocLookup]
  have hbase_nil :
      ((match webhook.payload with
        | some extra => extra.foldl (fun m p => assocInsert p.1 p.2 m) []
        | none => ([] : List (Str × JVal))) = []) ↔ webhook.payload.getD [] = [] := by
    cases hp : webhook.payload with
    | none => simp
    | some extra =>
      simp only [Option.getD_some]
      cases extra with
      | nil => simp
      | cons q qrest =>
        constructor
        · intro hfold
          have hlen := foldl_assocInsert_length qrest (assocInsert q.1 q.2 [])
          rw [List.foldl_cons] at hfold
          rw [hfold] at hlen
          simp [assocInsert] at hlen
        · intro hh; exact absurd hh (by simp)
  refine ⟨?_, ?_, ?_, ?_, ?_, ?_, ?_, ?_, ?_, ?_⟩
  · intro f
    by_cases had : webhook.addEventData
    · by_cases hf : f = fEvent
      · subst hf
        rw [if_pos (⟨had, rfl⟩ : webhook.addEventData = true ∧ fEvent = fEvent)]
        simp only [buildWebhookPayload]
        rw [if_pos had]
        exact assocLookup_insert_self _ _ _
      · rw [if_neg (fun hc => hf hc.2)]
        simp only [buildWebhookPayload]
        rw [if_pos had, assocLookup_insert_ne _ _ _ _ hf]
        exact hbase f
    · rw [if_neg (fun hc => had hc.1)]
      simp only [buildWebhookPayload]
      rw [if_neg had]
      exact hbase f
  · by_cases had : webhook.addEventData
    · constructor
      · intro hh
        exfalso
        simp only [buildWebhookPayload] at hh
        rw [if_pos had] at hh
        exact assocInsert_ne_nil _ _ _ hh
      · intro hh
        exact absurd had (by simp [hh.2])
    · simp only [buildWebhookPayload]
      rw [if_neg had, hbase_nil]
      have haff : webhook.addEventData = false := by simpa using had
      simp [haff]
  · cases kvItem with
    | none =>
      simp [buildEventData, assocLookup_insert_self,
        assocLookup_insert_ne _ _ _ _ (by decide : fEvent ≠ fValue),
        assocLookup_insert_ne _ _ _ _ (by decide : fEvent ≠ fTimestamp),
        assocLookup_insert_ne _ _ _ _ (by decide : fEvent ≠ fKey),
        assocLookup_insert_ne _ _ _ _ (by decide : fEvent ≠ fAppName),
        assocLookup_insert_ne _ _ _ _ (by decide : fEvent ≠ fNamespace)]
    | some item =>
      cases ht : item.ttl <;>
        simp [buildEventData, ht, assocLookup_insert_self,
          assocLookup_insert_ne _ _ _ _ (by decide : fEvent ≠ fExpireAt),
          assocLookup_insert_ne _ _ _ _ (by decide : fEvent ≠ fTtl),
          assocLookup_insert_ne _ _ _ _ (by decide : fEvent ≠ fValue),
          assocLookup_insert_ne _ _ _ _ (by decide : fEvent ≠ fTimestamp),
          assocLookup_insert_ne _ _ _ _ (by decide : fEvent ≠ fKey),
          assocLookup_insert_ne _ _ _ _ (by decide : fEvent ≠ fAppName),
          assocLookup_insert_ne _ _ _ _ (by decide : fEvent ≠ fNamespace)]
  · cases kvItem with
    | none =>
      simp [buildEventData, assocLookup_insert_self,
        assocLookup_insert_ne _ _ _ _ (by decide : fNamespace ≠ fValue),
        assocLookup_insert_ne _ _ _ _ (by decide : fNamespace ≠ fTimestamp),
        assocLookup_insert_ne _ _ _ _ (by decide : fNamespace ≠ fKey),
        assocLookup_insert_ne _ _ _ _ (by decide : fNamespace ≠ fAppName)]
    | some item =>
      cases ht : item.ttl <;>
        simp [buildEventData, ht, assocLookup_insert_self,
          assocLookup_insert_ne _ _ _ _ (by decide : fNamespace ≠ fExpireAt),
          assocLookup_insert_ne _ _ _ _ (by decide : fNamespace ≠ fTtl),
          assocLookup_insert_ne _ _ _ _ (by decide : fNamespace ≠ fValue),
          assocLookup_insert_ne _ _ _ _ (by decide : fNamespace ≠ fTimestamp),
          assocLookup_insert_ne _ _ _ _ (by decide : fNamespace ≠ fKey),
          assocLookup_insert_ne _ _ _ _ (by decide : fNamespace ≠ fAppName)]
  · cases kvItem with
    | none =>
      simp [buildEventData, assocLookup_insert_self,
        assocLookup_insert_ne _ _ _ _ (by decide : fAppName ≠ fValue),
        assocLookup_insert_ne _ _ _ _ (by decide : fAppName ≠ fTimestamp),
        assocLookup_insert_ne _ _ _ _ (by decide : fAppName ≠ fKey)]
    | some item =>
      cases ht : item.ttl <;>
        simp [buildEventData, ht, assocLookup_insert_self,
          assocLookup_insert_ne _ _ _ _ (by decide : fAppName ≠ fExpireAt),
          assocLookup_insert_ne _ _ _ _ (by decide : fAppName ≠ fTtl),
          assocLookup_insert_ne _ _ _ _ (by decide : fAppName ≠ fValue),
          assocLookup_insert_ne _ _ _ _ (by decide : fAppName ≠ fTimestamp),
          assocLookup_insert_ne _ _ _ _ (by decide : fAppName ≠ fKey)]
  · cases kvItem with
    | none =>
      simp [buildEventData, assocLookup_insert_self,
        assocLookup_insert_ne _ _ _ _ (by decide : fKey ≠ fValue),
        assocLookup_insert_ne _ _ _ _ (by decide : fKey ≠ fTimestamp)]
    | some item =>
      cases ht : item.ttl <;>
        simp [buildEventData, ht, assocLookup_insert_self,
          assocLookup_insert_ne _ _ _ _ (by decide : fKey ≠ fExpireAt),
          assocLookup_insert_ne _ _ _ _ (by decide : fKey ≠ fTtl),
          assocLookup_insert_ne _ _ _ _ (by decide : fKey ≠ fValue),
          assocLookup_insert_ne _ _ _ _ (by decide : fKey ≠ fTimestamp)]
  · cases kvItem with
    | none =>
      simp [buildEventData, assocLookup_insert_self,
        assocLookup_insert_ne _ _ _ _ (by decide : fTimestamp ≠ fValue)]
    | some item =>
      cases ht : item.ttl <;>
        simp [buildEventData, ht, assocLookup_insert_self,
          assocLookup_insert_ne _ _ _ _ (by decide : fTimestamp ≠ fExpireAt),
          assocLookup_insert_ne _ _ _ _ (by decide : fTimestamp ≠ fTtl),
          assocLookup_insert_ne _ _ _ _ (by decide : fTimestamp ≠ fValue)]
  · cases kvItem with
    | none => simp [buildEventData, assocLookup_insert_self]
    | some item =>
      cases ht : item.ttl <;>
        simp [buildEventData, ht, assocLookup_insert_self,
          assocLookup_insert_ne _ _ _ _ (by decide : fValue ≠ fExpireAt),
          assocLookup_insert_ne _ _ _ _ (by decide : fValue ≠ fTtl)]
  · cases kvItem with
    | none => simp +decide [buildEventData, assocInsert, assocLookup]
    | some item =>
      cases ht : item.ttl with
      | none => simp +decide [buildEventData, ht, assocInsert, assocLookup]
      | some t =>
        simp [buildEventData, ht, assocLookup_insert_self,
          assocLookup_insert_ne _ _ _ _ (by decide : fTtl ≠ fExpireAt)]
  · cases kvItem with
    | none => simp +decide [buildEventData, assocInsert, assocLookup]
    | some item =>
      cases ht : item.ttl with
      | none => simp +decide [buildEventData, ht, assocInsert, assocLookup]
      | some t =>
        simp [buildEventData, ht, assocLookup_insert_self]

/-- Witness for C8: instantiating the payload theorem at a concrete webhook
with one custom field and a 60-second-TTL item at instant 100. -/
theorem buildWebhookPayload_spec_witness :
    ((webhookSample.payload.getD []).map Prod.fst).Nodup ∧
    assocLookup fTtl (buildEventData webhookSample (strL ("user1")) (some kvItemSample) 100) =
      some (JVal.jInt 60) ∧
    assocLookup fExpireAt (buildEventData webhookSample (strL ("user1")) (some kvItemSample) 100) =
      some (JVal.jInt 160) := by
  refine ⟨by decide, ?_, ?_⟩
  · rw [(buildWebhookPayload_spec webhookSample (strL ("user1")) (some kvItemSample) 100
      (by decide)).2.2.2.2.2.2.2.2.1]
    rfl
  · rw [(buildWebhookPayload_spec webhookSample (strL ("user1")) (some kvItemSample) 100
      (by decide)).2.2.2.2.2.2.2.2.2]
    rfl

end SimpleKV
